import Mathlib

/-!
Shallow embedding of `pyliger/preprocessing.py` (the pyliger preprocessing
pipeline) and verification of the frozen claims about it.

Conventions of the embedding:

* Matrices are `List (List ℚ)` in the orientation the source uses for an
  `AnnData` object: rows (`obs`) are genes, columns (`var`) are cells.
  Machine floats are modelled by exact rationals; `x / 0 = 0` in `ℚ`, so every
  theorem that depends on a division explicitly tracks that the divisor is
  nonzero (that is the model of "no NaN/Inf is produced").
* The transcendental library functions the source calls (`np.log10`,
  `np.sqrt`, `scipy.stats.norm.ppf`) are ordinary parameters of the embedded
  definitions (a `TransFns` record of functions `ℚ → ℚ`): every claim here is
  either independent of their values or is stated as an equivalence in which
  they appear on both sides.
* `np.union1d` / `np.intersect1d` return sorted deduplicated arrays; the
  embedding returns deduplicated lists without the sort.  Every claim about
  them is a set-level (membership / emptiness / cardinality) statement, which
  the ordering does not affect.
* Console `print` calls are not modelled, except where the printing
  expression itself raises in Python (`removeMissingObs` indexes
  `var['barcode']`, a missing key, on the gene axis, and indexes
  `obs['gene_name']` with a cell-axis boolean mask on the cell axis); those
  raises are modelled as `Except.error` results, since the function then
  returns no result.
-/

namespace Pyliger

section RatReducible

/- The `Batteries` arithmetic on `Rat` is `@[irreducible]`; re-enabling the
default reducibility lets `decide` evaluate the embedded pipeline on the
concrete rational inputs of the witnesses below. -/
attribute [local semireducible] Rat.add Rat.mul Rat.inv Rat.sub

deriving instance DecidableEq for Except

/-! ### Matrix primitives -/

/-- Number of columns of a row-major matrix (the length of its first row;
`numpy` matrices are rectangular, so this is the shape's second component). -/
def width (m : List (List ℚ)) : ℕ := (m.headD []).length

/-- The `np.sum(m, axis=0)` at column `j`: the sum of column `j`, reading a `0`
for rows that are too short (a rectangular matrix never is). -/
def colSum (m : List (List ℚ)) (j : ℕ) : ℚ := (m.map (fun r => r.getD j 0)).sum

/-- The `np.sum(m, axis=1)` at row `i`: the sum of row `i`. -/
def rowSum (m : List (List ℚ)) (i : ℕ) : ℚ := (m.getD i []).sum

/-- The list `np.sum(m, axis=0)` of all column sums. -/
def colSumsList (m : List (List ℚ)) : List ℚ := (List.range (width m)).map (colSum m)

/-- The `np.mean` of a vector. -/
def rowMean (r : List ℚ) : ℚ := r.sum / (r.length : ℚ)

/-- The `np.var` of a vector (population variance, denominator `N`). -/
def rowVarP (r : List ℚ) : ℚ :=
  ((r.map (fun x => (x - rowMean r) ^ 2)).sum) / (r.length : ℚ)

/-- Sum of squares of a vector (`np.sum(np.square(r))`). -/
def sumSq (r : List ℚ) : ℚ := (r.map (fun x => x ^ 2)).sum

/-- Transpose of a row-major rectangular matrix. -/
def transposeM (m : List (List ℚ)) : List (List ℚ) :=
  (List.range (width m)).map (fun j => m.map (fun r => r.getD j 0))

/-! ### The data model

One `AnnData` object of the pipeline: genes on the row (`obs`) axis with
their `gene_name` column, cells on the column (`var`) axis with their
`barcodes` column, the raw matrix `X` and the derived layers. -/

structure DataSet where
  geneNames : List String
  barcodes : List String
  X : List (List ℚ)
  normData : List (List ℚ)
  scaleData : List (List ℚ)
deriving DecidableEq, Repr

instance : Inhabited DataSet := ⟨⟨[], [], [], [], []⟩⟩

/-- The liger aggregate: the ordered dataset list plus the `var_genes`
selection set. -/
structure Liger where
  datasets : List DataSet
  varGenes : List String
deriving DecidableEq, Repr

/-! ### `removeMissingObs`

`removeMissingObs(liger_object, slot_use, use_cols)` filters the chosen slot
(`'raw_data'`, i.e. `X`, or `'scale_data'`; the documented options) for
all-zero columns (`use_cols=True`) or rows (`use_cols=False`) and subsets the
whole `AnnData` (all layers plus the identifier vector of the filtered axis).
When `0 < count < 25` the function also prints the removed identifiers, and
that printing expression raises in Python:

* on the row (gene) axis it reads `var['barcode']`, a column that does not
  exist (`barcodes` does), so it raises `KeyError` whenever `0 < count < 25`;
* on the column (cell) axis it indexes `obs['gene_name']` (length = number of
  genes) with the cell-axis boolean mask (length = number of cells), raising
  `IndexError` whenever the two lengths differ.

Those raises are modelled as `Except.error`. -/

inductive Slot
  | rawData
  | scaleData
deriving DecidableEq, Repr

/-- The matrix the chosen slot filters on (`filter_data` in the source). -/
def slotMatrix : Slot → DataSet → List (List ℚ)
  | .rawData, d => d.X
  | .scaleData, d => d.scaleData

/-- Column indices kept by the cell-axis filter (`~missing`). -/
def keepColIdx (m : List (List ℚ)) : List ℕ :=
  (List.range (width m)).filter (fun j => ¬ colSum m j = 0)

/-- The `np.sum(missing)` for the cell-axis mask. -/
def missColCount (m : List (List ℚ)) : ℕ :=
  ((List.range (width m)).filter (fun j => colSum m j = 0)).length

/-- Row indices kept by the gene-axis filter (`~missing`). -/
def keepRowIdx (m : List (List ℚ)) : List ℕ :=
  (List.range m.length).filter (fun i => ¬ rowSum m i = 0)

/-- The `np.sum(missing)` for the gene-axis mask. -/
def missRowCount (m : List (List ℚ)) : ℕ :=
  ((List.range m.length).filter (fun i => rowSum m i = 0)).length

/-- The `adata[:, ~missing]`: keep the given columns in every layer and in the
cell identifier vector. -/
def subsetCols (keep : List ℕ) (d : DataSet) : DataSet :=
  { geneNames := d.geneNames
    barcodes := keep.map (fun j => d.barcodes.getD j "")
    X := d.X.map (fun r => keep.map (fun j => r.getD j 0))
    normData := d.normData.map (fun r => keep.map (fun j => r.getD j 0))
    scaleData := d.scaleData.map (fun r => keep.map (fun j => r.getD j 0)) }

/-- The `adata[~missing, :]`: keep the given rows in every layer and in the gene
identifier vector. -/
def subsetRows (keep : List ℕ) (d : DataSet) : DataSet :=
  { geneNames := keep.map (fun i => d.geneNames.getD i "")
    barcodes := d.barcodes
    X := keep.map (fun i => d.X.getD i [])
    normData := keep.map (fun i => d.normData.getD i [])
    scaleData := keep.map (fun i => d.scaleData.getD i []) }

/-- One dataset of the `removeMissingObs` loop.  When no entry is missing the
dataset is untouched (the whole body is guarded by `np.sum(missing) > 0`). -/
def procOne (slot : Slot) (useCols : Bool) (d : DataSet) : Except String DataSet :=
  let m := slotMatrix slot d
  if useCols then
    if missColCount m = 0 then .ok d
    else if missColCount m < 25 ∧ d.geneNames.length ≠ width m then
      .error "IndexError: boolean index did not match indexed series"
    else .ok (subsetCols (keepColIdx m) d)
  else
    if missRowCount m = 0 then .ok d
    else if missRowCount m < 25 then .error "KeyError: barcode"
    else .ok (subsetRows (keepRowIdx m) d)

/-- The dataset loop: Python raises out of the loop at the first failing
dataset and the function returns nothing. -/
def processAll (f : DataSet → Except String DataSet) : List DataSet → Except String (List DataSet)
  | [] => .ok []
  | d :: ds =>
    match f d with
    | .error e => .error e
    | .ok d' =>
      match processAll f ds with
      | .error e => .error e
      | .ok ds' => .ok (d' :: ds')

/-- The `removeMissingObs` on the aggregate. -/
def removeMissingObsE (slot : Slot) (useCols : Bool) (lg : Liger) : Except String Liger :=
  (processAll (procOne slot useCols) lg.datasets).map
    (fun ds => { datasets := ds, varGenes := lg.varGenes })

/-! ### `normalize`

`normalize` first runs `removeMissingObs(liger_object, slot_use='raw_data',
use_cols=True)` and then sets, for every dataset,
`layers['norm_data'] = X / np.sum(X, axis=0)` (each column of `X` divided by
its own total). -/

/-- The per-dataset division step of `normalize`. -/
def addNormLayer (d : DataSet) : DataSet :=
  { d with normData := d.X.map (fun r => List.zipWith (· / ·) r (colSumsList d.X)) }

/-- The `normalize` on the aggregate. -/
def normalizeE (lg : Liger) : Except String Liger :=
  (removeMissingObsE .rawData true lg).map
    (fun lg2 => { datasets := lg2.datasets.map addNormLayer, varGenes := lg2.varGenes })

def normWitnessIn : Liger :=
  ⟨[⟨["g1", "g2", "g3"], ["c1", "c2", "c3"], [[1, 0, 2], [1, 0, 0], [0, 0, 1]], [], []⟩], []⟩

def normWitnessOut : Liger :=
  ⟨[⟨["g1", "g2", "g3"], ["c1", "c3"], [[1, 2], [1, 0], [0, 1]],
    [[1/2, 2/3], [1/2, 0], [0, 1/3]], []⟩], []⟩

def normWitnessD : DataSet :=
  ⟨["g1", "g2", "g3"], ["c1", "c3"], [[1, 2], [1, 0], [0, 1]],
    [[1/2, 2/3], [1/2, 0], [0, 1/3]], []⟩

/-! ### `selectGenes`

The statistical core.  The library functions `np.log10`, `np.sqrt` and
`scipy.stats.norm.ppf` (inverse standard-normal CDF) are parameters of the
embedding, collected in `TransFns`.  The `num_genes` optimization branch is
not part of the embedding: as called, `scipy.optimize.minimize` receives the
misspelled keyword `agrs` and raises `TypeError` before doing anything (see
claim C2), so the modelled function is `selectGenes` with `num_genes=None`
and a scalar `var_thresh` (the scalar is broadcast to every dataset by
`np.repeat`, so one rational parameter represents it). -/

structure TransFns where
  log10 : ℚ → ℚ
  sqrtQ : ℚ → ℚ
  ppf : ℚ → ℚ

/-- The `np.union1d` (up to the sort: deduplicated concatenation). -/
def union1d (a b : List String) : List String := (a ++ b).dedup

/-- The `np.intersect1d` (up to the sort: deduplicated common elements). -/
def intersect1d (a b : List String) : List String :=
  (a.filter (fun s => s ∈ b)).dedup

inductive Combine
  | union
  | intersect
deriving DecidableEq, Repr

/-- One iteration of the gene-set accumulation in the dataset loop:
`union` does `genes_use = np.union1d(genes_use, genes_new)`; `intersect`
first replaces an empty accumulator by `genes_new` and then intersects. -/
def combineStep : Combine → List String → List String → List String
  | .union, acc, new => union1d acc new
  | .intersect, acc, new => intersect1d (if acc.isEmpty then new else acc) new

/-- The whole accumulation over the per-dataset selections, starting from the
empty `np.array([])`. -/
def combineFold (c : Combine) (sets : List (List String)) : List String :=
  sets.foldl (combineStep c) []

/-- The `trx_per_cell = np.sum(X, axis=0)`: per-cell totals of the raw layer. -/
def trxPerCell (d : DataSet) : List ℚ := (List.range (width d.X)).map (colSum d.X)

/-- The `nolan_constant = np.mean(1 / trx_per_cell)`. -/
def nolanConstant (d : DataSet) : ℚ := rowMean ((trxPerCell d).map (fun t => 1 / t))

/-- The `gene_expr_mean = np.mean(norm_data, axis=1)`. -/
def geneExprMean (d : DataSet) : List ℚ := d.normData.map rowMean

/-- The `gene_expr_var = np.var(norm_data, axis=1)`. -/
def geneExprVar (d : DataSet) : List ℚ := d.normData.map rowVarP

/-- The `alphathresh_corrected = alpha_thresh / adata.shape[0]` (`shape[0]` is the
gene count: genes are the `obs` axis). -/
def alphaCorrected (alpha : ℚ) (d : DataSet) : ℚ := alpha / (d.X.length : ℚ)

/-- The `genemeanupper`; `adata.shape[1]` is the cell count. -/
def geneMeanUpper (fns : TransFns) (alpha : ℚ) (d : DataSet) : List ℚ :=
  (geneExprMean d).map (fun mu =>
    mu + fns.ppf (1 - alphaCorrected alpha d / 2)
      * fns.sqrtQ (mu * nolanConstant d / (width d.X : ℚ)))

/-- The `basegenelower = np.log10(gene_expr_mean * nolan_constant)`. -/
def baseGeneLower (fns : TransFns) (d : DataSet) : List ℚ :=
  (geneExprMean d).map (fun mu => fns.log10 (mu * nolanConstant d))

/-- The `select_gene` mask at gene index `g`:
`(gene_expr_var / nolan_constant > genemeanupper) &
(np.log10(gene_expr_var) > basegenelower + var_thresh[i])`. -/
def selectGeneAt (fns : TransFns) (alpha t : ℚ) (d : DataSet) (g : ℕ) : Bool :=
  decide ((geneExprVar d).getD g 0 / nolanConstant d > (geneMeanUpper fns alpha d).getD g 0)
    && decide (fns.log10 ((geneExprVar d).getD g 0) > (baseGeneLower fns d).getD g 0 + t)

/-- The `genes_new = adata.obs['gene_name'].to_numpy()[select_gene]`. -/
def genesNew (fns : TransFns) (alpha t : ℚ) (d : DataSet) : List String :=
  ((List.range d.normData.length).filter (fun g => selectGeneAt fns alpha t d g)).map
    (fun g => d.geneNames.getD g "")

/-- The `capitalize` branch: inside the loop over `datasets_use`, the
`gene_name` column of each used dataset is uppercased in place. -/
def capitalizeDatasets (use : List ℕ) : ℕ → List DataSet → List DataSet
  | _, [] => []
  | i, d :: ds =>
    (if i ∈ use then { d with geneNames := d.geneNames.map (fun s => s.toUpper) } else d)
      :: capitalizeDatasets use (i + 1) ds

/-- The `datasets_use = np.intersect1d(datasets_use, range(len(adata_list)))`
(the source replaces the argument by this intersection whenever they differ,
so the effective index list is always the sorted intersection). -/
def effectiveUse (n : ℕ) (datasetsUse : List ℕ) : List ℕ :=
  (List.range n).filter (fun i => i ∈ datasetsUse)

/-- The dataset list after the (optional) in-place capitalization. -/
def datasetsAfterCap (cap : Bool) (use : List ℕ) (lg : Liger) : List DataSet :=
  if cap then capitalizeDatasets use 0 lg.datasets else lg.datasets

/-- The value of `genes_use` after the dataset loop (before `keep_unique`). -/
def combinedSelection (fns : TransFns) (varThresh alpha : ℚ) (datasetsUse : List ℕ)
    (combine : Combine) (cap : Bool) (lg : Liger) : List String :=
  combineFold combine
    ((effectiveUse lg.datasets.length datasetsUse).map (fun i =>
      genesNew fns alpha varThresh
        ((datasetsAfterCap cap (effectiveUse lg.datasets.length datasetsUse) lg).getD i default)))

/-- The `keep_unique=False` postlude: `genes_use` is intersected with the
`gene_name` vocabulary of **every** dataset of the aggregate (not only the
used ones, and not with per-dataset selections). -/
def vocabFold (init : List String) (ds : List DataSet) : List String :=
  ds.foldl (fun acc d => intersect1d acc d.geneNames) init

/-- The `selectGenes` with `num_genes=None`: returns the updated liger object and
whether the empty-selection warning (`'No genes were selected; ...'`) fires. -/
def selectGenesModel (fns : TransFns) (varThresh alpha : ℚ) (datasetsUse : List ℕ)
    (combine : Combine) (keepUnique cap : Bool) (lg : Liger) : Liger × Bool :=
  let use := effectiveUse lg.datasets.length datasetsUse
  let ds := datasetsAfterCap cap use lg
  let combined := combinedSelection fns varThresh alpha datasetsUse combine cap lg
  let genesUse := if keepUnique then combined else vocabFold combined ds
  ({ datasets := ds, varGenes := genesUse }, genesUse.isEmpty)

/-- The C1 selection criterion written from the claim's own words: a gene is
selected exactly when `(gene_var / nolan) > mean_upper` and
`log10(gene_var) > base_lower + var_thresh`, with
`mean_upper = gene_mean + z(1 - (alpha/num_genes)/2) * sqrt(gene_mean * nolan / num_cells)`,
`base_lower = log10(gene_mean * nolan)`, `nolan = mean(1/trx_per_cell)` from
the raw per-cell totals, and `gene_mean`/`gene_var` the mean and variance of
the gene's normalized row across the cells. -/
def claimSelectedSpec (fns : TransFns) (alpha t : ℚ) (d : DataSet) (g : ℕ) : Prop :=
  let numGenes : ℚ := (d.X.length : ℚ)
  let numCells : ℚ := (width d.X : ℚ)
  let nolan : ℚ := ((List.range (width d.X)).map (fun c => 1 / colSum d.X c)).sum / numCells
  let geneMean : ℚ := (d.normData.getD g []).sum / numCells
  let geneVar : ℚ :=
    ((d.normData.getD g []).map (fun x => (x - geneMean) ^ 2)).sum / numCells
  let meanUpper : ℚ :=
    geneMean + fns.ppf (1 - (alpha / numGenes) / 2) * fns.sqrtQ (geneMean * nolan / numCells)
  let baseLower : ℚ := fns.log10 (geneMean * nolan)
  geneVar / nolan > meanUpper ∧ fns.log10 geneVar > baseLower + t

def fnsW : TransFns := ⟨fun x => 10 * x, fun x => x, fun _ => 0⟩

def selCritWitnessD : DataSet :=
  ⟨["g1", "g2"], ["c1", "c2"], [[14, 2], [2, 14]], [[7/8, 1/8], [1/8, 7/8]], []⟩

def lgC3 : Liger :=
  ⟨[⟨["g1"], ["a1", "a2"], [[2, 2]], [[1, 1]], []⟩,
    ⟨["g1", "z2"], ["b1", "b2"], [[14, 2], [2, 14]], [[7/8, 1/8], [1/8, 7/8]], []⟩], []⟩

def lgC7 : Liger :=
  ⟨[⟨["g1", "g2", "g3"], ["a1", "a2"], [[12, 4], [2, 2], [2, 10]],
      [[3/4, 1/4], [1/8, 1/8], [1/8, 5/8]], []⟩,
    ⟨["g1", "g2", "g3"], ["b1", "b2"], [[508, 2], [2, 508], [2, 2]],
      [[127/128, 1/256], [1/256, 127/128], [1/256, 1/256]], []⟩], []⟩

/-! ### `createLiger`'s input validation (claim C4)

Whether names and cell-identifier uniqueness are validated.  The check runs
per dataset, only inside the `make_sparse` branch that applies when the
input matrix is **already** sparse, tests uniqueness of the dataset's *own*
`var['barcodes']` only, and additionally requires `X.shape[0] > 1`.  The rest
of `createLiger` (merging, missing-observation removal, `cell_data`) never
looks at barcode uniqueness again. -/

structure AData where
  isSparse : Bool
  hasObsKeys : Bool
  hasVarKeys : Bool
  X : List (List ℚ)
  barcodes : List String
deriving DecidableEq, Repr

/-- The validation applied to a single dataset at the top of `createLiger`. -/
def checkOne (makeSparse : Bool) (a : AData) : Except String Unit :=
  if makeSparse ∧ a.isSparse then
    if ¬ a.hasObsKeys ∨ ¬ a.hasVarKeys then
      .error "Raw data must have both row (gene) and column (cell) names."
    else if a.barcodes.length - a.barcodes.dedup.length > 0 ∧ a.X.length > 1 then
      .error "At least one cell name is repeated across datasets; please make sure all cell names are unique."
    else .ok ()
  else .ok ()

/-- The validation loop over the whole input collection. -/
def createLigerCheck (makeSparse : Bool) : List AData → Except String Unit
  | [] => .ok ()
  | a :: tl =>
    match checkOne makeSparse a with
    | .error e => .error e
    | .ok _ => createLigerCheck makeSparse tl

def dupAD1 : AData := ⟨true, true, true, [[1, 2], [3, 4]], ["c1", "c2"]⟩

def dupAD2 : AData := ⟨true, true, true, [[5, 6], [7, 8]], ["c1", "c3"]⟩

/-! ### `scaleNotCenter` (claim C8)

For each dataset: restrict to the genes in `var_genes`
(`obs['gene_name'].isin(var_genes)` row mask), then
`scale_data = csr(norm.T / sqrt(sum(square(norm), axis=1)/(shape[1]-1))).T`.
The optional trailing `removeMissingObs(slot_use='scale_data',
use_cols=False)` is the modelled filter from above. -/

/-- The `np.sqrt(np.sum(np.square(m), axis=1)/(m.shape[1]-1))`: the per-gene
root-mean-square denominators. -/
def rmsDenomVec (sq : ℚ → ℚ) (m : List (List ℚ)) : List ℚ :=
  m.map (fun r => sq (sumSq r / ((width m : ℚ) - 1)))

/-- The source's computation: transpose, divide by the per-gene vector
(numpy broadcasting along rows), transpose back. -/
def scaleCode (sq : ℚ → ℚ) (m : List (List ℚ)) : List (List ℚ) :=
  transposeM ((transposeM m).map (fun row => List.zipWith (· / ·) row (rmsDenomVec sq m)))

/-- The claim's wording: each gene's normalized row divided by the
root-mean-square of that gene across cells with denominator `num_cells - 1`,
no mean subtraction. -/
def scaleSpec (sq : ℚ → ℚ) (m : List (List ℚ)) : List (List ℚ) :=
  m.map (fun r => r.map (fun x => x / sq (sumSq r / ((width m : ℚ) - 1))))

/-- The `adata[idx,]` for `idx = obs['gene_name'].isin(var_genes)`. -/
def restrictToVarGenes (vg : List String) (d : DataSet) : DataSet :=
  subsetRows ((List.range d.geneNames.length).filter (fun i => d.geneNames.getD i "" ∈ vg)) d

/-- One dataset of the `scaleNotCenter` loop. -/
def scaleOne (sq : ℚ → ℚ) (vg : List String) (d : DataSet) : DataSet :=
  let d2 := restrictToVarGenes vg d
  { d2 with scaleData := scaleCode sq d2.normData }

/-- The `scaleNotCenter` before the optional missing-observation pass. -/
def scaleNotCenterCore (sq : ℚ → ℚ) (lg : Liger) : Liger :=
  { datasets := lg.datasets.map (scaleOne sq lg.varGenes), varGenes := lg.varGenes }

/-- Full `scaleNotCenter`, with the `remove_missing` flag. -/
def scaleNotCenterModel (sq : ℚ → ℚ) (removeMissing : Bool) (lg : Liger) :
    Except String Liger :=
  if removeMissing then removeMissingObsE .scaleData false (scaleNotCenterCore sq lg)
  else .ok (scaleNotCenterCore sq lg)

def qabs : ℚ → ℚ := fun y => |y|

def scaleWitnessD : DataSet :=
  ⟨["g1", "g2"], ["c1", "c2"], [[3, 1], [1, 3]], [[3/4, 1/4], [1/4, 3/4]], []⟩

def scaleWitnessLg : Liger := ⟨[scaleWitnessD], ["g1"]⟩


/-! ### The theorems: generic list lemmas, then the claims -/

/-! ### Generic list lemmas used throughout -/

theorem getD_map_of_lt {α β : Type} (l : List α) (f : α → β) (j : ℕ) (d : β) (a : α)
    (h : j < l.length) : (l.map f).getD j d = f (l.getD j a) := by
  induction l generalizing j with
  | nil => simp at h
  | cons x t ih =>
    cases j with
    | zero => rfl
    | succ j => exact ih j (by simpa using h)

theorem getD_of_ge {α : Type} (l : List α) (j : ℕ) (d : α) (h : l.length ≤ j) :
    l.getD j d = d := by
  induction l generalizing j with
  | nil => cases j <;> rfl
  | cons x t ih =>
    cases j with
    | zero => simp at h
    | succ j => exact ih j (by simpa using h)

theorem map_getD_range {α : Type} (l : List α) (d : α) :
    (List.range l.length).map (fun i => l.getD i d) = l := by
  induction l with
  | nil => rfl
  | cons a t ih =>
    rw [List.length_cons, List.range_succ_eq_map, List.map_cons, List.map_map]
    exact congrArg (List.cons a) ih

theorem map_eq_map_range {α β : Type} (l : List α) (d : α) (f : α → β) :
    l.map f = (List.range l.length).map (fun i => f (l.getD i d)) := by
  conv_lhs => rw [← map_getD_range l d]
  rw [List.map_map]
  rfl

/-! ### Idempotence of the missing-observation filter -/

theorem getD_mem_of_lt {α : Type} (l : List α) (n : ℕ) (d : α) (h : n < l.length) :
    l.getD n d ∈ l := by
  induction l generalizing n with
  | nil => simp at h
  | cons a t ih =>
    cases n with
    | zero => simp
    | succ n =>
      simp only [List.getD_cons_succ]
      exact List.mem_cons_of_mem _ (ih n (by simpa using h))

theorem missColCount_eq_zero_iff (m : List (List ℚ)) :
    missColCount m = 0 ↔ ∀ j < width m, colSum m j ≠ 0 := by
  simp [missColCount, List.length_eq_zero, List.filter_eq_nil_iff, List.mem_range]

theorem missRowCount_eq_zero_iff (m : List (List ℚ)) :
    missRowCount m = 0 ↔ ∀ i < m.length, rowSum m i ≠ 0 := by
  simp [missRowCount, List.length_eq_zero, List.filter_eq_nil_iff, List.mem_range]

theorem colSum_keepColIdx_ne (m : List (List ℚ)) (j : ℕ)
    (h : j < (keepColIdx m).length) : colSum m ((keepColIdx m).getD j 0) ≠ 0 := by
  have hmem : (keepColIdx m).getD j 0 ∈ keepColIdx m := getD_mem_of_lt _ _ _ h
  have := List.of_mem_filter hmem
  simpa using this

theorem rowSum_keepRowIdx_ne (m : List (List ℚ)) (i : ℕ)
    (h : i < (keepRowIdx m).length) : rowSum m ((keepRowIdx m).getD i 0) ≠ 0 := by
  have hmem : (keepRowIdx m).getD i 0 ∈ keepRowIdx m := getD_mem_of_lt _ _ _ h
  have := List.of_mem_filter hmem
  simpa using this

theorem colSum_map_keep (m : List (List ℚ)) (keep : List ℕ) (j : ℕ)
    (h : j < keep.length) :
    colSum (m.map (fun r => keep.map (fun i => r.getD i 0))) j
      = colSum m (keep.getD j 0) := by
  unfold colSum
  rw [List.map_map]
  refine congrArg List.sum ?_
  have hfun : ((fun r : List ℚ => r.getD j 0) ∘ fun r : List ℚ => keep.map (fun i => r.getD i 0))
      = fun r : List ℚ => r.getD (keep.getD j 0) 0 := by
    funext r
    exact getD_map_of_lt keep (fun i => r.getD i 0) j 0 0 h
  rw [hfun]

theorem width_map_keep (m : List (List ℚ)) (keep : List ℕ) (h : m ≠ []) :
    width (m.map (fun r => keep.map (fun i => r.getD i 0))) = keep.length := by
  cases m with
  | nil => exact absurd rfl h
  | cons r t => simp [width]

theorem missColCount_nil : missColCount ([] : List (List ℚ)) = 0 := rfl

theorem missColCount_map_keepColIdx (m : List (List ℚ)) (hm : missColCount m ≠ 0) :
    missColCount (m.map (fun r => (keepColIdx m).map (fun i => r.getD i 0))) = 0 := by
  have hne : m ≠ [] := by
    intro h
    exact hm (h ▸ missColCount_nil)
  rw [missColCount_eq_zero_iff]
  intro j hj
  rw [width_map_keep _ _ hne] at hj
  rw [colSum_map_keep _ _ _ hj]
  exact colSum_keepColIdx_ne m j hj

theorem missRowCount_map_keepRowIdx (m : List (List ℚ)) :
    missRowCount ((keepRowIdx m).map (fun i => m.getD i [])) = 0 := by
  rw [missRowCount_eq_zero_iff]
  intro i hi
  rw [List.length_map] at hi
  unfold rowSum
  rw [getD_map_of_lt (keepRowIdx m) (fun i => m.getD i []) i [] 0 hi]
  exact rowSum_keepRowIdx_ne m i hi

theorem slotMatrix_subsetCols (slot : Slot) (keep : List ℕ) (d : DataSet) :
    slotMatrix slot (subsetCols keep d)
      = (slotMatrix slot d).map (fun r => keep.map (fun i => r.getD i 0)) := by
  cases slot <;> rfl

theorem slotMatrix_subsetRows (slot : Slot) (keep : List ℕ) (d : DataSet) :
    slotMatrix slot (subsetRows keep d)
      = keep.map (fun i => (slotMatrix slot d).getD i []) := by
  cases slot <;> rfl

theorem procOne_idem (slot : Slot) (useCols : Bool) (d d' : DataSet)
    (h : procOne slot useCols d = .ok d') : procOne slot useCols d' = .ok d' := by
  cases useCols with
  | true =>
    by_cases h0 : missColCount (slotMatrix slot d) = 0
    · have hd : d' = d := by
        unfold procOne at h
        simp [h0] at h
        exact h.symm
      subst hd
      unfold procOne
      simp [h0]
    · by_cases hcrash : missColCount (slotMatrix slot d) < 25 ∧
          d.geneNames.length ≠ width (slotMatrix slot d)
      · unfold procOne at h
        simp [h0, hcrash] at h
      · have hd : d' = subsetCols (keepColIdx (slotMatrix slot d)) d := by
          unfold procOne at h
          simp [h0, hcrash] at h
          exact h.symm
        subst hd
        have hz : missColCount (slotMatrix slot (subsetCols (keepColIdx (slotMatrix slot d)) d)) = 0 := by
          rw [slotMatrix_subsetCols]
          exact missColCount_map_keepColIdx _ h0
        unfold procOne
        simp [hz]
  | false =>
    by_cases h0 : missRowCount (slotMatrix slot d) = 0
    · have hd : d' = d := by
        unfold procOne at h
        simp [h0] at h
        exact h.symm
      subst hd
      unfold procOne
      simp [h0]
    · by_cases hcrash : missRowCount (slotMatrix slot d) < 25
      · unfold procOne at h
        simp [h0, hcrash] at h
      · have hd : d' = subsetRows (keepRowIdx (slotMatrix slot d)) d := by
          unfold procOne at h
          simp [h0, hcrash] at h
          exact h.symm
        subst hd
        have hz : missRowCount (slotMatrix slot (subsetRows (keepRowIdx (slotMatrix slot d)) d)) = 0 := by
          rw [slotMatrix_subsetRows]
          exact missRowCount_map_keepRowIdx _
        unfold procOne
        simp [hz]

theorem processAll_idem (f : DataSet → Except String DataSet)
    (hf : ∀ d d', f d = .ok d' → f d' = .ok d') :
    ∀ l l', processAll f l = .ok l' → processAll f l' = .ok l' := by
  intro l
  induction l with
  | nil =>
    intro l' h
    simp only [processAll] at h
    cases h
    rfl
  | cons d ds ih =>
    intro l' h
    simp only [processAll] at h
    cases hfd : f d with
    | error e => rw [hfd] at h; cases h
    | ok d' =>
      rw [hfd] at h
      cases hds : processAll f ds with
      | error e => rw [hds] at h; cases h
      | ok ds' =>
        rw [hds] at h
        cases h
        simp only [processAll]
        rw [hf d d' hfd, ih ds' hds]

/-- C6: `removeMissingObs` is idempotent: for every liger object and every
chosen slot (`raw_data` or `scale_data`, the documented options) and axis,
running it a second time returns exactly the first run's result (on a
successful first run nothing further is removed, because every kept row or
column keeps its nonzero sum; a failing first run fails the same way). -/
theorem removeMissingObs_idempotent (slot : Slot) (useCols : Bool) (lg : Liger) :
    (removeMissingObsE slot useCols lg).bind (removeMissingObsE slot useCols)
      = removeMissingObsE slot useCols lg := by
  unfold removeMissingObsE
  cases h : processAll (procOne slot useCols) lg.datasets with
  | error e => rfl
  | ok ds' =>
    have h2 := processAll_idem _ (procOne_idem slot useCols) _ _ h
    simp only [Except.map, Except.bind]
    rw [h2]

theorem processAll_ok_mem (f : DataSet → Except String DataSet) :
    ∀ l l', processAll f l = .ok l' → ∀ b ∈ l', ∃ a ∈ l, f a = .ok b := by
  intro l
  induction l with
  | nil =>
    intro l' h b hb
    simp only [processAll] at h
    cases h
    simp at hb
  | cons d ds ih =>
    intro l' h b hb
    simp only [processAll] at h
    cases hfd : f d with
    | error e => rw [hfd] at h; cases h
    | ok d' =>
      rw [hfd] at h
      cases hds : processAll f ds with
      | error e => rw [hds] at h; cases h
      | ok ds' =>
        rw [hds] at h
        cases h
        rcases List.mem_cons.mp hb with hb | hb
        · exact ⟨d, List.mem_cons_self _ _, hb ▸ hfd⟩
        · rcases ih ds' hds b hb with ⟨a, ha, hfa⟩
          exact ⟨a, List.mem_cons_of_mem _ ha, hfa⟩

/-- A successful pass of the cell-axis raw-data filter leaves no zero-total
column in `X`. -/
theorem procOne_raw_cols_ok (d d' : DataSet)
    (h : procOne .rawData true d = .ok d') :
    ∀ c < width d'.X, colSum d'.X c ≠ 0 := by
  have h0 : missColCount (slotMatrix .rawData d') = 0 := by
    have := procOne_idem .rawData true d d' h
    unfold procOne at this
    by_cases hz : missColCount (slotMatrix .rawData d') = 0
    · exact hz
    · by_cases hcrash : missColCount (slotMatrix .rawData d') < 25 ∧
          d'.geneNames.length ≠ width (slotMatrix .rawData d')
      · simp [hz, hcrash] at this
      · simp [hz, hcrash] at this
        -- `this : subsetCols ... d' = d'`; taking `missColCount` of both sides
        -- contradicts `hz` unless the count was zero already
        have hzz := missColCount_map_keepColIdx (slotMatrix .rawData d') hz
        rw [← slotMatrix_subsetCols .rawData (keepColIdx (slotMatrix .rawData d')) d', this] at hzz
        exact absurd hzz hz
  exact (missColCount_eq_zero_iff _).mp h0

theorem zipWith_div_getD (r s : List ℚ) (c : ℕ) (hc : c < s.length) :
    (List.zipWith (· / ·) r s).getD c 0 = r.getD c 0 / s.getD c 0 := by
  induction r generalizing s c with
  | nil => simp [zero_div]
  | cons a r ih =>
    cases s with
    | nil => simp at hc
    | cons b s =>
      cases c with
      | zero => rfl
      | succ c =>
        simp only [List.zipWith_cons_cons, List.getD_cons_succ]
        exact ih s c (by simpa using hc)

theorem sum_map_div (m : List (List ℚ)) (f : List ℚ → ℚ) (s : ℚ) :
    (m.map (fun r => f r / s)).sum = (m.map f).sum / s := by
  induction m with
  | nil => simp
  | cons r t ih => simp [ih, add_div]

/-- C5: `normalize` first removes the zero-total cells from the raw layer, so
every cell that is normalized has a nonzero raw total (no division by zero —
the model of "no NaN/Inf"), and afterwards every cell's `norm_data` column
sums to exactly `1`. -/
theorem normalize_cell_sums (lg lg' : Liger) (h : normalizeE lg = .ok lg')
    (d' : DataSet) (hd : d' ∈ lg'.datasets) (c : ℕ) (hc : c < width d'.X) :
    colSum d'.X c ≠ 0 ∧ colSum d'.normData c = 1 := by
  unfold normalizeE removeMissingObsE at h
  cases hp : processAll (procOne .rawData true) lg.datasets with
  | error e => rw [hp] at h; cases h
  | ok ds' =>
    rw [hp] at h
    simp only [Except.map] at h
    cases h
    simp only at hd
    rcases List.mem_map.mp hd with ⟨d0, hd0, hdd⟩
    rcases processAll_ok_mem _ _ _ hp d0 hd0 with ⟨d, _, hfd⟩
    have hX : d'.X = d0.X := by rw [← hdd]; rfl
    have hcols : ∀ c < width d0.X, colSum d0.X c ≠ 0 := procOne_raw_cols_ok d d0 hfd
    have hc0 : c < width d0.X := by rw [← hX]; exact hc
    have hne := hcols c hc0
    refine ⟨by rw [hX]; exact hne, ?_⟩
    have hnorm : d'.normData = d0.X.map (fun r => List.zipWith (· / ·) r (colSumsList d0.X)) := by
      rw [← hdd]; rfl
    have hclen : c < (colSumsList d0.X).length := by
      simpa [colSumsList] using hc0
    have hgetD : (colSumsList d0.X).getD c 0 = colSum d0.X c := by
      unfold colSumsList
      rw [getD_map_of_lt (List.range (width d0.X)) (colSum d0.X) c 0 0 (by simpa using hc0)]
      rw [List.getD_eq_getElem?_getD]
      simp [hc0]
    unfold colSum
    rw [hnorm, List.map_map]
    have hfun : ((fun r : List ℚ => r.getD c 0) ∘ fun r : List ℚ =>
        List.zipWith (· / ·) r (colSumsList d0.X))
        = fun r : List ℚ => r.getD c 0 / colSum d0.X c := by
      funext r
      show (List.zipWith (· / ·) r (colSumsList d0.X)).getD c 0 = r.getD c 0 / colSum d0.X c
      rw [zipWith_div_getD r (colSumsList d0.X) c hclen, hgetD]
    rw [hfun, sum_map_div d0.X (fun r => r.getD c 0) (colSum d0.X c)]
    exact div_self hne

/-- Witness for C5: a concrete liger whose middle cell has zero total; after
`normalize` the kept first cell has nonzero raw total and unit norm sum. -/
theorem normalize_cell_sums_witness :
    colSum normWitnessD.X 0 ≠ 0 ∧ colSum normWitnessD.normData 0 = 1 :=
  normalize_cell_sums normWitnessIn normWitnessOut (by decide) normWitnessD (by decide) 0 (by decide)

/-- C1: the embedded `select_gene` mask of `selectGenes` agrees, gene by
gene, with the claim's criterion `claimSelectedSpec` on every dataset whose
normalized layer is rectangular with one column per cell. -/
theorem selectGenes_selection_criterion (fns : TransFns) (alpha t : ℚ) (d : DataSet) (g : ℕ)
    (hrect : ∀ r ∈ d.normData, r.length = width d.X) (hg : g < d.normData.length) :
    selectGeneAt fns alpha t d g = true ↔ claimSelectedSpec fns alpha t d g := by
  have hr : d.normData.getD g [] ∈ d.normData := getD_mem_of_lt _ _ _ hg
  have hlen : (d.normData.getD g []).length = width d.X := hrect _ hr
  have hmean : (geneExprMean d).getD g 0 = (d.normData.getD g []).sum / (width d.X : ℚ) := by
    unfold geneExprMean
    rw [getD_map_of_lt d.normData rowMean g 0 [] hg]
    unfold rowMean
    rw [hlen]
  have hvar : (geneExprVar d).getD g 0
      = ((d.normData.getD g []).map
          (fun x => (x - (d.normData.getD g []).sum / (width d.X : ℚ)) ^ 2)).sum
        / (width d.X : ℚ) := by
    unfold geneExprVar
    rw [getD_map_of_lt d.normData rowVarP g 0 [] hg]
    unfold rowVarP rowMean
    rw [hlen]
  have hnolan : nolanConstant d
      = ((List.range (width d.X)).map (fun c => 1 / colSum d.X c)).sum / (width d.X : ℚ) := by
    unfold nolanConstant trxPerCell rowMean
    rw [List.map_map, List.length_map, List.length_range]
    rfl
  have hg2 : g < (geneExprMean d).length := by
    unfold geneExprMean
    rw [List.length_map]
    exact hg
  have hupper : (geneMeanUpper fns alpha d).getD g 0
      = (d.normData.getD g []).sum / (width d.X : ℚ)
        + fns.ppf (1 - alpha / (d.X.length : ℚ) / 2)
          * fns.sqrtQ ((d.normData.getD g []).sum / (width d.X : ℚ) * nolanConstant d
              / (width d.X : ℚ)) := by
    unfold geneMeanUpper
    rw [getD_map_of_lt (geneExprMean d) _ g 0 0 hg2, hmean]
    unfold alphaCorrected
    rfl
  have hlower : (baseGeneLower fns d).getD g 0
      = fns.log10 ((d.normData.getD g []).sum / (width d.X : ℚ) * nolanConstant d) := by
    unfold baseGeneLower
    rw [getD_map_of_lt (geneExprMean d) _ g 0 0 hg2, hmean]
  unfold selectGeneAt claimSelectedSpec
  simp only [Bool.and_eq_true, decide_eq_true_eq]
  rw [hvar, hupper, hlower, hnolan]

/-- Witness for C1 at a concrete dataset, gene index `0`. -/
theorem selectGenes_selection_criterion_witness :
    0 < selCritWitnessD.normData.length ∧
      (selectGeneAt fnsW (99/100) (1/10) selCritWitnessD 0 = true ↔
        claimSelectedSpec fnsW (99/100) (1/10) selCritWitnessD 0) :=
  ⟨by decide,
    selectGenes_selection_criterion fnsW (99/100) (1/10) selCritWitnessD 0
      (by decide) (by decide)⟩

/-- C10: with `capitalize=False` the dataset list of the aggregate — every
matrix, layer and identifier vector — is returned unchanged; only the
`var_genes` field (and the warning flag) are produced. -/
theorem selectGenes_frame_no_capitalize (fns : TransFns) (vt alpha : ℚ) (du : List ℕ)
    (c : Combine) (ku : Bool) (lg : Liger) :
    (selectGenesModel fns vt alpha du c ku false lg).1.datasets = lg.datasets := rfl

theorem mem_intersect1d {a b : List String} {g : String} :
    g ∈ intersect1d a b ↔ g ∈ a ∧ g ∈ b := by
  simp [intersect1d]

theorem mem_union1d {a b : List String} {g : String} :
    g ∈ union1d a b ↔ g ∈ a ∨ g ∈ b := by
  simp [union1d]

theorem mem_vocabFold (init : List String) (ds : List DataSet) (g : String) :
    g ∈ vocabFold init ds ↔ g ∈ init ∧ ∀ d ∈ ds, g ∈ d.geneNames := by
  induction ds generalizing init with
  | nil => simp [vocabFold]
  | cons d tl ih =>
    unfold vocabFold at ih ⊢
    rw [List.foldl_cons, ih (intersect1d init d.geneNames)]
    rw [mem_intersect1d]
    simp [and_assoc]

/-- C9: with `keep_unique=False`, a gene is in the final `var_genes` exactly
when it is in the combined per-dataset selection *and* in the full
`gene_name` vocabulary of every dataset of the aggregate — membership in a
dataset's own selection is not required beyond the combine step. -/
theorem selectGenes_keepUnique_false_vocab (fns : TransFns) (vt alpha : ℚ) (du : List ℕ)
    (c : Combine) (cap : Bool) (lg : Liger) (g : String) :
    g ∈ (selectGenesModel fns vt alpha du c false cap lg).1.varGenes ↔
      (g ∈ combinedSelection fns vt alpha du c cap lg ∧
        ∀ d ∈ (selectGenesModel fns vt alpha du c false cap lg).1.datasets,
          g ∈ d.geneNames) :=
  mem_vocabFold _ _ g

theorem filter_mem_self (s : List String) : s.filter (fun x => x ∈ s) = s :=
  List.filter_eq_self.mpr (fun a ha => by simpa using ha)

theorem combineStep_intersect_nil (s : List String) :
    combineStep .intersect [] s = s.dedup := by
  show intersect1d (if (true : Bool) then s else []) s = s.dedup
  rw [if_pos rfl]
  unfold intersect1d
  rw [filter_mem_self]

theorem combineFold_intersect_pair (s1 s2 : List String) (h : s1 ≠ []) :
    combineFold .intersect [s1, s2] = intersect1d s1.dedup s2 := by
  unfold combineFold
  rw [List.foldl_cons, List.foldl_cons, List.foldl_nil, combineStep_intersect_nil]
  show intersect1d (if s1.dedup.isEmpty then s2 else s1.dedup) s2 = intersect1d s1.dedup s2
  cases hd : s1.dedup with
  | nil => exact absurd ((List.dedup_eq_nil s1).mp hd) h
  | cons a tl => rfl

theorem mem_foldl_union (sets : List (List String)) (init : List String) (g : String) :
    g ∈ sets.foldl (combineStep .union) init ↔ g ∈ init ∨ ∃ s ∈ sets, g ∈ s := by
  induction sets generalizing init with
  | nil => simp
  | cons s tl ih =>
    rw [List.foldl_cons, ih (combineStep .union init s),
      show combineStep .union init s = union1d init s from rfl]
    simp only [mem_union1d, List.mem_cons]
    constructor
    · rintro ((h0 | hs) | ⟨s', hs', hgs'⟩)
      · exact Or.inl h0
      · exact Or.inr ⟨s, Or.inl rfl, hs⟩
      · exact Or.inr ⟨s', Or.inr hs', hgs'⟩
    · rintro (h0 | ⟨s', hs' | hs', hgs'⟩)
      · exact Or.inl (Or.inl h0)
      · exact Or.inl (Or.inr (hs' ▸ hgs'))
      · exact Or.inr ⟨s', hs', hgs'⟩

/-- C3 amended: `combine='union'` yields exactly the union of the
per-dataset selections; `combine='intersect'` is a running intersection that
restarts from the current dataset's selection whenever the accumulator is
empty — on two datasets it is the true intersection provided the first
selection is nonempty, and on two disjoint such selections it yields the
empty set, in which case the non-fatal empty-selection warning fires (the
returned flag equals the emptiness of `var_genes`). -/
theorem selectGenes_combine_modes :
    (∀ (sets : List (List String)) (g : String),
        g ∈ combineFold .union sets ↔ ∃ s ∈ sets, g ∈ s) ∧
    (∀ (s1 s2 : List String) (g : String), s1 ≠ [] →
        (g ∈ combineFold .intersect [s1, s2] ↔ g ∈ s1 ∧ g ∈ s2)) ∧
    (∀ s1 s2 : List String, s1 ≠ [] → (∀ g ∈ s1, g ∉ s2) →
        combineFold .intersect [s1, s2] = []) ∧
    (∀ (fns : TransFns) (vt alpha : ℚ) (du : List ℕ) (ku cap : Bool) (lg : Liger),
        (selectGenesModel fns vt alpha du .intersect ku cap lg).2
          = (selectGenesModel fns vt alpha du .intersect ku cap lg).1.varGenes.isEmpty) := by
  refine ⟨?_, ?_, ?_, ?_⟩
  · intro sets g
    rw [combineFold, mem_foldl_union]
    simp
  · intro s1 s2 g h
    rw [combineFold_intersect_pair s1 s2 h, mem_intersect1d, List.mem_dedup]
  · intro s1 s2 h hdisj
    rw [combineFold_intersect_pair s1 s2 h]
    unfold intersect1d
    rw [List.filter_eq_nil_iff.mpr ?_]
    · rfl
    · intro a ha
      simpa using hdisj a (List.mem_dedup.mp ha)
  · intro fns vt alpha du ku cap lg
    rfl

/-- Witness for C3's amended statement at concrete gene sets. -/
theorem selectGenes_combine_modes_witness :
    ("x" ∈ combineFold .union [["x"]] ↔ ∃ s ∈ [["x"]], "x" ∈ s) ∧
    ("a" ∈ combineFold .intersect [["a"], ["a", "b"]] ↔ "a" ∈ ["a"] ∧ "a" ∈ ["a", "b"]) ∧
    combineFold .intersect [["c"], ["d"]] = [] :=
  ⟨selectGenes_combine_modes.1 [["x"]] "x",
    selectGenes_combine_modes.2.1 ["a"] ["a", "b"] "a" (by decide),
    selectGenes_combine_modes.2.2.1 ["c"] ["d"] (by decide) (by decide)⟩

/-- C3 counterexample: on `lgC3`, dataset 0 selects nothing, dataset 1
selects `{g1, z2}`; the true intersection of the selections is empty, yet
`selectGenes` with `combine='intersect'` returns a set containing `g1`
(the empty accumulator is reset to dataset 1's selection). -/
theorem selectGenes_intersect_not_intersection :
    "g1" ∈ (selectGenesModel fnsW (1/10) (99/100) [0, 1] .intersect false false lgC3).1.varGenes
      ∧ genesNew fnsW (99/100) (1/10) (lgC3.datasets.getD 0 default) = [] := by
  constructor
  · decide
  · decide

theorem genesNew_anti (fns : TransFns) (alpha : ℚ) {t1 t2 : ℚ} (h : t1 ≤ t2) (d : DataSet) :
    genesNew fns alpha t2 d ⊆ genesNew fns alpha t1 d := by
  unfold genesNew
  refine List.Sublist.subset (List.Sublist.map _ ?_)
  refine List.monotone_filter_right _ ?_
  intro g hg
  unfold selectGeneAt at hg ⊢
  simp only [Bool.and_eq_true, decide_eq_true_eq] at hg ⊢
  refine ⟨hg.1, lt_of_le_of_lt ?_ hg.2⟩
  exact add_le_add_left h _

theorem combinedSelection_union_anti (fns : TransFns) (alpha : ℚ) {t1 t2 : ℚ}
    (h : t1 ≤ t2) (du : List ℕ) (cap : Bool) (lg : Liger) :
    combinedSelection fns t2 alpha du .union cap lg
      ⊆ combinedSelection fns t1 alpha du .union cap lg := by
  intro g hgm
  unfold combinedSelection combineFold at hgm ⊢
  rw [mem_foldl_union] at hgm ⊢
  rcases hgm with h0 | ⟨s, hs, hgs⟩
  · exact Or.inl h0
  · rcases List.mem_map.mp hs with ⟨i, hi, rfl⟩
    exact Or.inr ⟨_, List.mem_map_of_mem _ hi, genesNew_anti fns alpha h _ hgs⟩

theorem nodup_combineStep (c : Combine) (acc new : List String) :
    (combineStep c acc new).Nodup := by
  cases c
  · exact List.nodup_dedup _
  · exact List.nodup_dedup _

theorem nodup_foldl_combineStep (c : Combine) (sets : List (List String)) :
    ∀ init : List String, init.Nodup → (sets.foldl (combineStep c) init).Nodup := by
  induction sets with
  | nil => intro init h; exact h
  | cons s tl ih => intro init _; exact ih _ (nodup_combineStep c init s)

theorem nodup_vocabFold (ds : List DataSet) :
    ∀ init : List String, init.Nodup → (vocabFold init ds).Nodup := by
  induction ds with
  | nil => intro init h; exact h
  | cons d tl ih =>
    intro init _
    exact ih _ (List.nodup_dedup _)

theorem nodup_selectGenes_varGenes (fns : TransFns) (vt alpha : ℚ) (du : List ℕ)
    (c : Combine) (ku cap : Bool) (lg : Liger) :
    ((selectGenesModel fns vt alpha du c ku cap lg).1.varGenes).Nodup := by
  have hcomb : (combinedSelection fns vt alpha du c cap lg).Nodup :=
    nodup_foldl_combineStep c _ [] List.nodup_nil
  cases ku
  · exact nodup_vocabFold _ _ hcomb
  · exact hcomb

/-- C7 amended: the per-dataset selection is antitone in `var_thresh`
(raising the threshold only removes genes), and with `combine='union'` so is
the final `var_genes` set, hence also its size.  (With `combine='intersect'`
the empty-accumulator reset can enlarge the result when the threshold grows;
see the counterexample.) -/
theorem selectGenes_union_threshold_antitone (fns : TransFns) (alpha : ℚ) {t1 t2 : ℚ}
    (d : DataSet) (du : List ℕ) (ku cap : Bool) (lg : Liger) (h : t1 ≤ t2) :
    genesNew fns alpha t2 d ⊆ genesNew fns alpha t1 d ∧
    (selectGenesModel fns t2 alpha du .union ku cap lg).1.varGenes ⊆
      (selectGenesModel fns t1 alpha du .union ku cap lg).1.varGenes ∧
    (selectGenesModel fns t2 alpha du .union ku cap lg).1.varGenes.length ≤
      (selectGenesModel fns t1 alpha du .union ku cap lg).1.varGenes.length := by
  have hsub : (selectGenesModel fns t2 alpha du .union ku cap lg).1.varGenes ⊆
      (selectGenesModel fns t1 alpha du .union ku cap lg).1.varGenes := by
    cases ku
    · intro g hg
      have hg2 := (mem_vocabFold _ _ g).mp hg
      exact (mem_vocabFold _ _ g).mpr
        ⟨combinedSelection_union_anti fns alpha h du cap lg hg2.1, hg2.2⟩
    · exact combinedSelection_union_anti fns alpha h du cap lg
  refine ⟨genesNew_anti fns alpha h d, hsub, ?_⟩
  exact ((nodup_selectGenes_varGenes fns t2 alpha du .union ku cap lg).subperm hsub).length_le

/-- Witness for C7's amended statement at a concrete aggregate. -/
theorem selectGenes_union_threshold_antitone_witness :
    (selectGenesModel fnsW 1 (99/100) [0, 1] .union false false lgC3).1.varGenes.length ≤
      (selectGenesModel fnsW 0 (99/100) [0, 1] .union false false lgC3).1.varGenes.length :=
  (selectGenes_union_threshold_antitone fnsW (99/100) default [0, 1] false false lgC3
    (by decide)).2.2

/-- C7 counterexample: with `combine='intersect'` (a "fixed remaining
parameter"), raising `var_thresh` from `0` to `1` *adds* the gene `g2` and
*increases* the selected count from 1 to 2 on `lgC7`: at the larger threshold
dataset 0 selects nothing, so the intersect accumulator is reset to dataset
1's full selection.  The input decides every comparison with a wide margin,
identically under the stand-in functions and under the real library ones:
the threshold-dependent test compares each gene's log-ratio
`log10(var / (mean * nolan))` with `var_thresh`, and on `lgC7` dataset 0's
ratios are `2` and `8/3` (`log10` about `0.30` and `0.43`, stand-in
differences `5/16` and `25/64` — strictly between the thresholds `0` and `1`
either way), while dataset 1's selected genes have ratio `64009/255`, about
`251` (`log10` about `2.40`, stand-in difference about `2.43` — above `1`
either way); the threshold-free bound is cleared by factors of 2 to 240 (or
failed at variance 0) for any `z` value in `[0, 4]`, which covers
`norm.ppf(0.835)`, about `0.974`, as well as the stand-in `0`. -/
theorem selectGenes_threshold_not_monotone :
    (0 : ℚ) ≤ 1 ∧
    "g2" ∈ (selectGenesModel fnsW 1 (99/100) [0, 1] .intersect false false lgC7).1.varGenes ∧
    "g2" ∉ (selectGenesModel fnsW 0 (99/100) [0, 1] .intersect false false lgC7).1.varGenes ∧
    (selectGenesModel fnsW 0 (99/100) [0, 1] .intersect false false lgC7).1.varGenes.length
      < (selectGenesModel fnsW 1 (99/100) [0, 1] .intersect false false lgC7).1.varGenes.length := by
  refine ⟨by decide, by decide, by decide, by decide⟩

/-- C4 evaluated at the failing input: the cell identifier `c1` repeats
across the two datasets of the collection, yet `createLiger`'s validation
accepts the input (each dataset's own barcodes are unique), so no fatal
duplicate-identifier error is raised. -/
theorem createLiger_accepts_cross_dataset_duplicate :
    ("c1" ∈ dupAD1.barcodes ∧ "c1" ∈ dupAD2.barcodes) ∧
      createLigerCheck true [dupAD1, dupAD2] = .ok () := by
  refine ⟨⟨by decide, by decide⟩, by decide⟩

theorem scaleCode_eq_scaleSpec (sq : ℚ → ℚ) (m : List (List ℚ))
    (hrect : ∀ r ∈ m, r.length = width m) (hw : m = [] ∨ width m ≠ 0) :
    scaleCode sq m = scaleSpec sq m := by
  rcases hw with hw | hw
  · subst hw; rfl
  · cases hT : transposeM m with
    | nil =>
      exfalso
      have : (transposeM m).length = width m := by
        unfold transposeM; rw [List.length_map, List.length_range]
      rw [hT] at this
      exact hw this.symm
    | cons row0 Trest =>
      have hTlen : ∀ row ∈ transposeM m, row.length = m.length := by
        intro row hrow
        unfold transposeM at hrow
        rcases List.mem_map.mp hrow with ⟨j, _, rfl⟩
        exact List.length_map _ _
      have hvlen : (rmsDenomVec sq m).length = m.length := List.length_map _ _
      -- the inner division keeps every transposed row at length m.length
      have hDrow : ∀ row ∈ transposeM m,
          (List.zipWith (· / ·) row (rmsDenomVec sq m)).length = m.length := by
        intro row hrow
        rw [List.length_zipWith, hTlen row hrow, hvlen, Nat.min_self]
      have hwD : width ((transposeM m).map
          (fun row => List.zipWith (· / ·) row (rmsDenomVec sq m))) = m.length := by
        rw [hT, List.map_cons]
        show (List.zipWith (· / ·) row0 (rmsDenomVec sq m)).length = m.length
        exact hDrow row0 (hT ▸ List.mem_cons_self _ _)
      show transposeM ((transposeM m).map
          (fun row => List.zipWith (· / ·) row (rmsDenomVec sq m))) = scaleSpec sq m
      set D := (transposeM m).map (fun row => List.zipWith (· / ·) row (rmsDenomVec sq m))
        with hD
      rw [show transposeM D
          = (List.range (width D)).map (fun g => D.map (fun r => r.getD g 0)) from rfl]
      rw [hwD]
      rw [show scaleSpec sq m = (List.range m.length).map
          (fun g => (m.getD g []).map
            (fun x => x / sq (sumSq (m.getD g []) / ((width m : ℚ) - 1)))) from
        map_eq_map_range m [] _]
      refine List.map_congr_left ?_
      intro g hgmem
      have hg : g < m.length := List.mem_range.mp hgmem
      rw [hD, List.map_map]
      have hstep1 : ∀ row ∈ transposeM m,
          ((fun r : List ℚ => r.getD g 0) ∘
            fun row : List ℚ => List.zipWith (· / ·) row (rmsDenomVec sq m)) row
          = row.getD g 0 / sq (sumSq (m.getD g []) / ((width m : ℚ) - 1)) := by
        intro row _
        show (List.zipWith (· / ·) row (rmsDenomVec sq m)).getD g 0
          = row.getD g 0 / sq (sumSq (m.getD g []) / ((width m : ℚ) - 1))
        rw [zipWith_div_getD row (rmsDenomVec sq m) g (by rw [hvlen]; exact hg)]
        unfold rmsDenomVec
        rw [getD_map_of_lt m _ g 0 [] hg]
      rw [List.map_congr_left hstep1]
      unfold transposeM
      rw [List.map_map]
      have hrowlen : (m.getD g []).length = width m :=
        hrect _ (getD_mem_of_lt _ _ _ hg)
      rw [show (m.getD g []).map
            (fun x => x / sq (sumSq (m.getD g []) / ((width m : ℚ) - 1)))
          = (List.range (width m)).map (fun j => (m.getD g []).getD j 0
              / sq (sumSq (m.getD g []) / ((width m : ℚ) - 1))) from by
        rw [map_eq_map_range (m.getD g []) 0 _, hrowlen]]
      refine List.map_congr_left ?_
      intro j _
      show (m.map (fun r => r.getD j 0)).getD g 0 / _ = _
      rw [getD_map_of_lt m (fun r => r.getD j 0) g 0 [] hg]

theorem filter_index_map {α : Type} (l : List α) (d0 : α) (p : α → Bool) :
    ((List.range l.length).filter (fun i => p (l.getD i d0))).map (fun i => l.getD i d0)
      = l.filter p := by
  induction l with
  | nil => rfl
  | cons a tl ih =>
    rw [List.length_cons, List.range_succ_eq_map]
    by_cases hpa : p a = true
    · rw [List.filter_cons_of_pos (by exact hpa), List.map_cons, List.filter_map,
        List.map_map, List.filter_cons_of_pos hpa]
      exact congrArg (a :: ·) ih
    · rw [List.filter_cons_of_neg (by exact hpa), List.filter_map, List.map_map,
        List.filter_cons_of_neg hpa]
      exact ih

theorem restrict_normData_mem (vg : List String) (d : DataSet)
    (hlen : d.normData.length = d.geneNames.length) :
    ∀ r ∈ (restrictToVarGenes vg d).normData, r ∈ d.normData := by
  intro r hr
  unfold restrictToVarGenes subsetRows at hr
  simp only at hr
  rcases List.mem_map.mp hr with ⟨i, hi, rfl⟩
  have hi2 : i < d.geneNames.length := List.mem_range.mp (List.mem_of_mem_filter hi)
  exact getD_mem_of_lt _ _ _ (by rw [hlen]; exact hi2)

/-- C8: for every dataset of the aggregate with rectangular, non-negative
normalized data having at least one cell per gene, `scaleNotCenter` keeps
exactly the genes listed in `var_genes`, sets `scale_data` to the normalized
layer divided gene-wise by the root-mean-square with denominator
`num_cells - 1` (no mean subtraction, as `scaleSpec` states it), and the
result is non-negative everywhere provided the square-root function is
non-negative valued. -/
theorem scaleNotCenter_rms_scaling (sq : ℚ → ℚ) (lg : Liger) (d : DataSet)
    (hsq : ∀ y : ℚ, 0 ≤ sq y)
    (hd : d ∈ lg.datasets)
    (hlen : d.normData.length = d.geneNames.length)
    (hrect : ∀ r ∈ d.normData, r.length = width d.normData)
    (hnn : ∀ r ∈ d.normData, ∀ x ∈ r, 0 ≤ x)
    (hnz : ∀ r ∈ d.normData, r ≠ []) :
    scaleOne sq lg.varGenes d ∈ (scaleNotCenterCore sq lg).datasets ∧
    (scaleOne sq lg.varGenes d).geneNames
      = d.geneNames.filter (fun s => s ∈ lg.varGenes) ∧
    (scaleOne sq lg.varGenes d).scaleData
      = scaleSpec sq (restrictToVarGenes lg.varGenes d).normData ∧
    ∀ r ∈ (scaleOne sq lg.varGenes d).scaleData, ∀ x ∈ r, 0 ≤ x := by
  have hmem' := restrict_normData_mem lg.varGenes d hlen
  have hall : ∀ r ∈ (restrictToVarGenes lg.varGenes d).normData, r.length = width d.normData :=
    fun r hr => hrect r (hmem' r hr)
  have hcode : (scaleOne sq lg.varGenes d).scaleData
      = scaleSpec sq (restrictToVarGenes lg.varGenes d).normData := by
    show scaleCode sq (restrictToVarGenes lg.varGenes d).normData
      = scaleSpec sq (restrictToVarGenes lg.varGenes d).normData
    cases hmm : (restrictToVarGenes lg.varGenes d).normData with
    | nil => rfl
    | cons r0 tl =>
      have hall2 : ∀ r ∈ r0 :: tl, r.length = width d.normData := by
        rw [← hmm]; exact hall
      have hmem2 : ∀ r ∈ r0 :: tl, r ∈ d.normData := by
        rw [← hmm]; exact hmem'
      have hwc : width (r0 :: tl) = r0.length := rfl
      refine scaleCode_eq_scaleSpec sq _ ?_ (Or.inr ?_)
      · intro r hr
        rw [hwc, hall2 r hr, ← hall2 r0 (List.mem_cons_self _ _)]
      · rw [hwc]
        intro hcon
        exact hnz r0 (hmem2 r0 (List.mem_cons_self _ _)) (List.eq_nil_of_length_eq_zero hcon)
  refine ⟨List.mem_map_of_mem _ hd, ?_, hcode, ?_⟩
  · show ((List.range d.geneNames.length).filter
        (fun i => d.geneNames.getD i "" ∈ lg.varGenes)).map (fun i => d.geneNames.getD i "")
      = d.geneNames.filter (fun s => s ∈ lg.varGenes)
    exact filter_index_map d.geneNames "" (fun s => decide (s ∈ lg.varGenes))
  · rw [hcode]
    intro r hr x hx
    unfold scaleSpec at hr
    rcases List.mem_map.mp hr with ⟨r0, hr0, rfl⟩
    rcases List.mem_map.mp hx with ⟨x0, hx0, rfl⟩
    exact div_nonneg (hnn r0 (hmem' r0 hr0) x0 hx0) (hsq _)

/-- Witness for C8 at a concrete dataset. -/
theorem scaleNotCenter_rms_scaling_witness :
    (scaleOne qabs ["g1"] scaleWitnessD).geneNames
        = scaleWitnessD.geneNames.filter (fun s => s ∈ ["g1"]) ∧
      (scaleOne qabs ["g1"] scaleWitnessD).scaleData
        = scaleSpec qabs (restrictToVarGenes ["g1"] scaleWitnessD).normData := by
  have h := scaleNotCenter_rms_scaling qabs scaleWitnessLg scaleWitnessD
    (fun y => abs_nonneg y) (by decide) (by decide) (by decide) (by decide) (by decide)
  exact ⟨h.2.1, h.2.2.1⟩

end RatReducible

end Pyliger
